import Mathlib

/-!
Verification development for the notes-saas content routes.

The definitions below are a shallow embedding of the route handlers in
`src/backend/src/routes/content.ts` and the role middleware in
`src/backend/src/middleware/auth.ts`.  The database is modelled as explicit
lists of rows; every handler becomes a pure function from a request and a
database state to `Except ApiError (result × DB)`.  Zod input validation is
assumed to have succeeded (handlers receive already-parsed data), and row ids
are supplied by the caller in place of the store-generated cuids, guarded by
the primary-key uniqueness check the store enforces.
-/

namespace NotesSaas

/-- ContentStatus enum (used by Chapter and Topic). -/
inductive ContentStatus
  | DRAFT
  | IN_REVIEW
  | APPROVED
  | PUBLISHED
  | ARCHIVED
  deriving DecidableEq, Repr

/-- UserRole enum, as used by the role gates and the seed scripts. -/
inductive UserRole
  | SUPER_ADMIN
  | ADMIN
  | MANAGER
  | CONTRIBUTOR
  | STUDENT
  deriving DecidableEq, Repr

/-- The authenticated caller (`req.user` after the auth middleware). -/
structure User where
  id : Nat
  role : UserRole
  deriving DecidableEq, Repr

/-- Error values produced by the errorHandler helpers (`unauthorized`,
`forbidden`, `badRequest`, `notFound`) used in the routes.  `conflict` is the
surface of a storage uniqueness violation and `internal` that of any other
storage error (e.g. updating a missing row); the errorHandler module itself is
not under `src/`, so those two kinds are modelled from the spec's error
taxonomy (§7). -/
inductive ApiError
  | unauthorized (msg : String)
  | forbidden (msg : String)
  | badRequest (msg : String)
  | notFound (msg : String)
  | conflict (msg : String)
  | internal (msg : String)
  deriving DecidableEq, Repr

instance {ε α : Type} [DecidableEq ε] [DecidableEq α] :
    DecidableEq (Except ε α) := fun a b =>
  match a, b with
  | .ok x, .ok y => decidable_of_iff (x = y) (by simp)
  | .error e, .error f => decidable_of_iff (e = f) (by simp)
  | .ok _, .error _ => isFalse (by simp)
  | .error _, .ok _ => isFalse (by simp)

/-- The error kind, stripped of its message. -/
inductive ErrKind
  | KUnauthorized
  | KForbidden
  | KBadRequest
  | KNotFound
  | KConflict
  | KInternal
  deriving DecidableEq, Repr

def kindOf : ApiError → ErrKind
  | .unauthorized _ => .KUnauthorized
  | .forbidden _ => .KForbidden
  | .badRequest _ => .KBadRequest
  | .notFound _ => .KNotFound
  | .conflict _ => .KConflict
  | .internal _ => .KInternal

def roleName : UserRole → String
  | .SUPER_ADMIN => "SUPER_ADMIN"
  | .ADMIN => "ADMIN"
  | .MANAGER => "MANAGER"
  | .CONTRIBUTOR => "CONTRIBUTOR"
  | .STUDENT => "STUDENT"

/-- `requireRole` middleware from `src/backend/src/middleware/auth.ts`
(lines 61-73): unauthorized when unauthenticated, forbidden when the caller's
role is not in the allowed list, otherwise the request proceeds. -/
def requireRole (allowedRoles : List UserRole) (user : Option User) :
    Except ApiError User :=
  match user with
  | none => .error (.unauthorized "Authentication required")
  | some u =>
    if allowedRoles.contains u.role then .ok u
    else .error (.forbidden ("Access denied. Required roles: " ++
      String.intercalate ", " (allowedRoles.map roleName)))

/-- The role list used by create/update/reorder/submit routes. -/
def contributorRoles : List UserRole :=
  [.SUPER_ADMIN, .ADMIN, .MANAGER, .CONTRIBUTOR]

/-- The role list used by approve/publish/reject/archive/restore routes. -/
def managerRoles : List UserRole := [.SUPER_ADMIN, .ADMIN, .MANAGER]

/-- `isAdmin` check of the read routes:
`req.user && [SUPER_ADMIN, ADMIN, MANAGER, CONTRIBUTOR].includes(req.user.role)`. -/
def isAdminUser (user : Option User) : Bool :=
  match user with
  | none => false
  | some u => contributorRoles.contains u.role

-- ============= data model (rows) =============

structure Chapter where
  id : Nat
  subjectId : Nat
  title : String
  slug : String
  description : Option String
  order : Int
  status : ContentStatus
  isVisible : Bool
  deriving DecidableEq, Repr

structure Topic where
  id : Nat
  chapterId : Nat
  title : String
  slug : String
  content : String
  excerpt : String
  order : Int
  status : ContentStatus
  isVisible : Bool
  metaTitle : Option String
  metaDescription : Option String
  scheduledAt : Option Nat
  publishedAt : Option Nat
  createdById : Nat
  deriving DecidableEq, Repr

structure TopicVersion where
  topicId : Nat
  version : Nat
  content : String
  changelog : String
  createdById : Nat
  deriving DecidableEq, Repr

/-- Audit rows (`prisma.auditLog.create`); the structured `changes` payload is
not needed by any claim and is not modelled. -/
structure AuditLogEntry where
  action : String
  entityType : String
  entityId : Nat
  entityName : String
  userId : Nat
  deriving DecidableEq, Repr

/-- The relevant database state: subject ids plus the chapter, topic,
topic-version and audit-log tables. -/
structure DB where
  subjects : List Nat
  chapters : List Chapter
  topics : List Topic
  versions : List TopicVersion
  auditLog : List AuditLogEntry
  deriving DecidableEq, Repr

def findChapter (db : DB) (id : Nat) : Option Chapter :=
  db.chapters.find? (fun c => c.id == id)

def findTopic (db : DB) (id : Nat) : Option Topic :=
  db.topics.find? (fun t => t.id == id)

/-- `prisma.topicVersion.findUnique` on the `(topicId, version)` key. -/
def findVersion (db : DB) (topicId version : Nat) : Option TopicVersion :=
  db.versions.find? (fun v => v.topicId == topicId && v.version == version)

/-- Version numbers stored for a topic. -/
def topicVersionNums (db : DB) (topicId : Nat) : List Nat :=
  (db.versions.filter (fun v => v.topicId == topicId)).map (fun v => v.version)

/-- `findFirst orderBy version desc` on a topic's versions, `?? 0`: the
largest stored version number, 0 when none. -/
def latestVersionNum (db : DB) (topicId : Nat) : Nat :=
  (topicVersionNums db topicId).foldr max 0

/-- `prisma.topic.update where { id }`: replace the row with that id. -/
def setTopic (db : DB) (id : Nat) (topic : Topic) : DB :=
  { db with topics := db.topics.map (fun t => if t.id == id then topic else t) }

def addAudit (db : DB) (action entityType : String) (entityId : Nat)
    (entityName : String) (userId : Nat) : DB :=
  { db with auditLog := db.auditLog ++
      [{ action := action, entityType := entityType, entityId := entityId,
         entityName := entityName, userId := userId }] }

-- ============= chapter creation (POST /chapters) =============

structure CreateChapterInput where
  title : String
  slug : String
  description : Option String
  order : Option Int
  subjectId : Nat
  deriving DecidableEq, Repr

/-- `(maxOrder?.order ?? -1) + 1` over the chapters of a subject. -/
def nextChapterOrder (db : DB) (subjectId : Nat) : Int :=
  (((db.chapters.filter (fun c => c.subjectId == subjectId)).map
      (fun c => c.order)).max?).getD (-1) + 1

/-- POST /chapters (content.ts lines 135-190).  The subject-existence check
throws `badRequest("Subject not found")`; when `order` is omitted it defaults
to max existing order + 1 (0 when the subject has no chapters).  The two
`conflict` guards model the store's uniqueness constraints (primary key, and
slug unique within subject per the spec's data model) which the route itself
does not check; the created row starts in the initial DRAFT status, visible. -/
def createChapter (user : Option User) (data : CreateChapterInput)
    (newId : Nat) (db : DB) : Except ApiError (Chapter × DB) :=
  match requireRole contributorRoles user with
  | .error e => .error e
  | .ok u =>
    if db.subjects.contains data.subjectId then
      let order := data.order.getD (nextChapterOrder db data.subjectId)
      if db.chapters.any (fun c => c.id == newId) then
        .error (.conflict "Unique constraint failed on the fields: (id)")
      else if db.chapters.any
          (fun c => c.subjectId == data.subjectId && c.slug == data.slug) then
        .error (.conflict "Unique constraint failed on the fields: (subjectId, slug)")
      else
        let ch : Chapter :=
          { id := newId, subjectId := data.subjectId, title := data.title,
            slug := data.slug, description := data.description, order := order,
            status := .DRAFT, isVisible := true }
        let db1 : DB := { db with chapters := db.chapters ++ [ch] }
        .ok (ch, addAudit db1 "CREATE" "Chapter" ch.id ch.title u.id)
    else .error (.badRequest "Subject not found")

-- ============= topic creation (POST /topics) =============

structure CreateTopicInput where
  title : String
  slug : String
  content : String
  excerpt : Option String
  order : Option Int
  chapterId : Nat
  metaTitle : Option String
  metaDescription : Option String
  deriving DecidableEq, Repr

/-- `content.substring(0, 200).replace(/[#*`]/g, '')`: first 200 characters
with the `#`, `*` and backtick markers removed. -/
def deriveExcerpt (content : String) : String :=
  String.mk ((content.take 200).toList.filter
    (fun c => !(c == '#' || c == '*' || c == Char.ofNat 96)))

/-- `data.excerpt || derived`: an absent or empty excerpt (falsy) falls back
to the derived one. -/
def topicExcerpt (excerpt : Option String) (content : String) : String :=
  match excerpt with
  | none => deriveExcerpt content
  | some e => if e == "" then deriveExcerpt content else e

/-- `(maxOrder?.order ?? -1) + 1` over the topics of a chapter. -/
def nextTopicOrder (db : DB) (chapterId : Nat) : Int :=
  (((db.topics.filter (fun t => t.chapterId == chapterId)).map
      (fun t => t.order)).max?).getD (-1) + 1

/-- POST /topics (content.ts lines 363-436): chapter-existence check
(`badRequest("Chapter not found")`), order default, excerpt derivation,
topic row creation, the initial TopicVersion at version 1 with changelog
"Initial version", and the CREATE audit entry.  The `conflict` guards model
the store's uniqueness constraints (primary key; slug unique within chapter
per the spec's data model), which the route itself does not check. -/
def createTopic (user : Option User) (data : CreateTopicInput) (newId : Nat)
    (db : DB) : Except ApiError (Topic × DB) :=
  match requireRole contributorRoles user with
  | .error e => .error e
  | .ok u =>
    match findChapter db data.chapterId with
    | none => .error (.badRequest "Chapter not found")
    | some _ =>
      let order := data.order.getD (nextTopicOrder db data.chapterId)
      if db.topics.any (fun t => t.id == newId) then
        .error (.conflict "Unique constraint failed on the fields: (id)")
      else if db.topics.any
          (fun t => t.chapterId == data.chapterId && t.slug == data.slug) then
        .error (.conflict "Unique constraint failed on the fields: (chapterId, slug)")
      else
        let topic : Topic :=
          { id := newId, chapterId := data.chapterId, title := data.title,
            slug := data.slug, content := data.content,
            excerpt := topicExcerpt data.excerpt data.content, order := order,
            status := .DRAFT, isVisible := true, metaTitle := data.metaTitle,
            metaDescription := data.metaDescription, scheduledAt := none,
            publishedAt := none, createdById := u.id }
        let db1 : DB := { db with topics := db.topics ++ [topic] }
        let db2 : DB := { db1 with versions := db1.versions ++
          [{ topicId := topic.id, version := 1, content := data.content,
             changelog := "Initial version", createdById := u.id }] }
        .ok (topic, addAudit db2 "CREATE" "Topic" topic.id topic.title u.id)

-- ============= topic update (PATCH /topics/:id) =============

structure UpdateTopicInput where
  title : Option String := none
  slug : Option String := none
  content : Option String := none
  excerpt : Option String := none
  order : Option Int := none
  status : Option ContentStatus := none
  isVisible : Option Bool := none
  metaTitle : Option String := none
  metaDescription : Option String := none
  scheduledAt : Option Nat := none
  deriving DecidableEq, Repr

/-- The row written by `prisma.topic.update` in PATCH /topics/:id: supplied
fields replace stored ones; `publishedAt` is stamped with the current time
exactly when the supplied status is PUBLISHED and the stored one is not. -/
def applyTopicUpdate (t : Topic) (d : UpdateTopicInput) (now : Nat) : Topic :=
  { t with
    title := d.title.getD t.title
    slug := d.slug.getD t.slug
    content := d.content.getD t.content
    excerpt := d.excerpt.getD t.excerpt
    order := d.order.getD t.order
    status := d.status.getD t.status
    isVisible := d.isVisible.getD t.isVisible
    metaTitle := if d.metaTitle.isSome then d.metaTitle else t.metaTitle
    metaDescription :=
      if d.metaDescription.isSome then d.metaDescription else t.metaDescription
    scheduledAt := if d.scheduledAt.isSome then d.scheduledAt else t.scheduledAt
    publishedAt :=
      if d.status == some .PUBLISHED && !(t.status == .PUBLISHED) then some now
      else t.publishedAt }

/-- `changelog || 'Content updated'`: an absent or empty (falsy) changelog
falls back to the default. -/
def defaultChangelog (changelog : Option String) : String :=
  match changelog with
  | none => "Content updated"
  | some s => if s == "" then "Content updated" else s

/-- PATCH /topics/:id (content.ts lines 439-509): not-found check, field
update (with the publishedAt stamping), then a new TopicVersion at
latest + 1 exactly when `data.content && data.content !== existing.content`
(JS truthiness: an empty string does not append), then the UPDATE audit
entry. -/
def updateTopic (user : Option User) (id : Nat) (data : UpdateTopicInput)
    (changelog : Option String) (now : Nat) (db : DB) :
    Except ApiError (Topic × DB) :=
  match requireRole contributorRoles user with
  | .error e => .error e
  | .ok u =>
    match findTopic db id with
    | none => .error (.notFound "Topic not found")
    | some existing =>
      let topic := applyTopicUpdate existing data now
      let db1 := setTopic db id topic
      let db2 :=
        match data.content with
        | none => db1
        | some c =>
          if !(c == "") && !(c == existing.content) then
            { db1 with versions := db1.versions ++
              [{ topicId := id, version := latestVersionNum db id + 1,
                 content := c, changelog := defaultChangelog changelog,
                 createdById := u.id }] }
          else db1
      .ok (topic, addAudit db2 "UPDATE" "Topic" id topic.title u.id)

-- ============= version restore =============

/-- POST /topics/:id/versions/:version/restore (content.ts lines 618-674):
not-found check on the `(topicId, version)` key, topic content overwrite,
a new TopicVersion at latest + 1 with changelog
"Restored from version {version}", and the RESTORE audit entry.  When the
topic row itself is missing the store's update throws, surfacing as an
internal error. -/
def restoreVersion (user : Option User) (id version : Nat) (db : DB) :
    Except ApiError (Topic × DB) :=
  match requireRole managerRoles user with
  | .error e => .error e
  | .ok u =>
    match findVersion db id version with
    | none => .error (.notFound "Version not found")
    | some tv =>
      let latest := latestVersionNum db id
      match findTopic db id with
      | none => .error (.internal "Record to update not found")
      | some t0 =>
        let topic := { t0 with content := tv.content }
        let db1 := setTopic db id topic
        let db2 := { db1 with versions := db1.versions ++
          [{ topicId := id, version := latest + 1, content := tv.content,
             changelog := "Restored from version " ++ toString version,
             createdById := u.id }] }
        .ok (topic, addAudit db2 "RESTORE" "Topic" id topic.title u.id)

-- ============= review workflow =============

/-- POST /topics/:id/submit-review (content.ts lines 679-712). -/
def submitForReview (user : Option User) (id : Nat) (db : DB) :
    Except ApiError (Topic × DB) :=
  match requireRole contributorRoles user with
  | .error e => .error e
  | .ok u =>
    match findTopic db id with
    | none => .error (.notFound "Topic not found")
    | some existing =>
      if existing.status == .DRAFT then
        let topic := { existing with status := ContentStatus.IN_REVIEW }
        .ok (topic, addAudit (setTopic db id topic) "SUBMIT_REVIEW" "Topic"
          id topic.title u.id)
      else .error (.badRequest "Only draft topics can be submitted for review")

/-- POST /topics/:id/approve (content.ts lines 715-748). -/
def approveTopic (user : Option User) (id : Nat) (db : DB) :
    Except ApiError (Topic × DB) :=
  match requireRole managerRoles user with
  | .error e => .error e
  | .ok u =>
    match findTopic db id with
    | none => .error (.notFound "Topic not found")
    | some existing =>
      if existing.status == .IN_REVIEW then
        let topic := { existing with status := ContentStatus.APPROVED }
        .ok (topic, addAudit (setTopic db id topic) "APPROVE" "Topic"
          id topic.title u.id)
      else .error (.badRequest "Only topics in review can be approved")

/-- POST /topics/:id/publish (content.ts lines 751-787). -/
def publishTopic (user : Option User) (id : Nat) (now : Nat) (db : DB) :
    Except ApiError (Topic × DB) :=
  match requireRole managerRoles user with
  | .error e => .error e
  | .ok u =>
    match findTopic db id with
    | none => .error (.notFound "Topic not found")
    | some existing =>
      if existing.status == .APPROVED || existing.status == .DRAFT then
        let topic := { existing with
          status := ContentStatus.PUBLISHED
          publishedAt := some now }
        .ok (topic, addAudit (setTopic db id topic) "PUBLISH" "Topic"
          id topic.title u.id)
      else .error (.badRequest "Topic must be approved or draft to publish")

/-- POST /topics/:id/reject (content.ts lines 790-821): no status guard. -/
def rejectTopic (user : Option User) (id : Nat) (reason : Option String)
    (db : DB) : Except ApiError (Topic × DB) :=
  match requireRole managerRoles user with
  | .error e => .error e
  | .ok u =>
    match findTopic db id with
    | none => .error (.notFound "Topic not found")
    | some existing =>
      let topic := { existing with status := ContentStatus.DRAFT }
      .ok (topic, addAudit (setTopic db id topic) "REJECT" "Topic"
        id topic.title u.id)

/-- POST /topics/:id/archive (content.ts lines 824-853): no status guard. -/
def archiveTopic (user : Option User) (id : Nat) (db : DB) :
    Except ApiError (Topic × DB) :=
  match requireRole managerRoles user with
  | .error e => .error e
  | .ok u =>
    match findTopic db id with
    | none => .error (.notFound "Topic not found")
    | some existing =>
      let topic := { existing with status := ContentStatus.ARCHIVED }
      .ok (topic, addAudit (setTopic db id topic) "ARCHIVE" "Topic"
        id topic.title u.id)

-- ============= reads (GET /chapters/:id, GET /topics/:id) =============

/-- GET /chapters/:id (content.ts lines 96-132): a missing chapter and a
chapter hidden from a non-admin reader fail with the same error. -/
def getChapter (user : Option User) (id : Nat) (db : DB) :
    Except ApiError Chapter :=
  match findChapter db id with
  | none => .error (.notFound "Chapter not found")
  | some ch =>
    if !(isAdminUser user) && (!ch.isVisible || !(ch.status == .PUBLISHED)) then
      .error (.notFound "Chapter not found")
    else .ok ch

/-- GET /topics/:id (content.ts lines 291-360), visibility gate only. -/
def getTopic (user : Option User) (id : Nat) (db : DB) :
    Except ApiError Topic :=
  match findTopic db id with
  | none => .error (.notFound "Topic not found")
  | some t =>
    if !(isAdminUser user) && (!t.isVisible || !(t.status == .PUBLISHED)) then
      .error (.notFound "Topic not found")
    else .ok t

-- ============= reorder routes =============

/-- The `$transaction` of per-id `update where { id } data { order: index }`
calls: each listed id in turn has its row's order set to its array index. -/
def applyOrderList {α : Type} (getId : α → Nat) (setOrd : α → Int → α)
    (xs : List α) (ids : List Nat) : List α :=
  ids.enum.foldl
    (fun acc p =>
      acc.map (fun x => if getId x == p.2 then setOrd x (Int.ofNat p.1) else x))
    xs

/-- POST /subjects/:subjectId/chapters/reorder (content.ts lines 264-286).
The `subjectId` route parameter is not used by the updates; a missing id makes
the store's update throw, failing the whole transaction.  No audit entry. -/
def reorderChapters (user : Option User) (subjectId : Nat)
    (chapterIds : List Nat) (db : DB) : Except ApiError DB :=
  match requireRole contributorRoles user with
  | .error e => .error e
  | .ok _ =>
    if chapterIds.all (fun i => db.chapters.any (fun c => c.id == i)) then
      let chs := applyOrderList (fun c => c.id)
        (fun c o => { c with order := o }) db.chapters chapterIds
      .ok { db with chapters := chs }
    else .error (.internal "Record to update not found")

/-- POST /chapters/:chapterId/topics/reorder (content.ts lines 541-563);
the `chapterId` route parameter is likewise unused by the updates. -/
def reorderTopics (user : Option User) (chapterId : Nat)
    (topicIds : List Nat) (db : DB) : Except ApiError DB :=
  match requireRole contributorRoles user with
  | .error e => .error e
  | .ok _ =>
    if topicIds.all (fun i => db.topics.any (fun t => t.id == i)) then
      let ts := applyOrderList (fun t => t.id)
        (fun t o => { t with order := o }) db.topics topicIds
      .ok { db with topics := ts }
    else .error (.internal "Record to update not found")

/-- Insert a topic into a list sorted ascending by `order`. -/
def insertByOrder (t : Topic) : List Topic → List Topic
  | [] => [t]
  | x :: xs => if t.order ≤ x.order then t :: x :: xs else x :: insertByOrder t xs

/-- Topics of a chapter as listed by the read routes: `orderBy order asc`
(insertion sort on the order column). -/
def listTopicsOfChapter (db : DB) (chapterId : Nat) : List Topic :=
  (db.topics.filter (fun t => t.chapterId == chapterId)).foldr insertByOrder []

-- ============= operation sequences =============

/-- The version-ledger operations of claim C1: topic creation, topic update
and version restore, each with its request data. -/
inductive TopicOp
  | create (user : Option User) (data : CreateTopicInput) (newId : Nat)
  | update (user : Option User) (id : Nat) (data : UpdateTopicInput)
      (changelog : Option String) (now : Nat)
  | restore (user : Option User) (id : Nat) (version : Nat)

def applyTopicOp : TopicOp → DB → Except ApiError (Topic × DB)
  | .create user data newId, db => createTopic user data newId db
  | .update user id data changelog now, db =>
      updateTopic user id data changelog now db
  | .restore user id version, db => restoreVersion user id version db

/-- Run one operation: a failed request leaves the database unchanged. -/
def runTopicOp (op : TopicOp) (db : DB) : DB :=
  match applyTopicOp op db with
  | .ok r => r.2
  | .error _ => db

def runTopicOps (ops : List TopicOp) (db : DB) : DB :=
  ops.foldl (fun d op => runTopicOp op d) db

/-- A list of version numbers is the gapless sequence 1..N (in some order). -/
def gapless (vs : List Nat) : Prop :=
  vs.Nodup ∧ ∀ k, k ∈ vs ↔ (1 ≤ k ∧ k ≤ vs.length)

/-- The workflow operations of §4.2, with their request data. -/
inductive WOp
  | submit (user : Option User) (id : Nat)
  | approve (user : Option User) (id : Nat)
  | publish (user : Option User) (id : Nat) (now : Nat)
  | reject (user : Option User) (id : Nat) (reason : Option String)
  | archive (user : Option User) (id : Nat)

def applyW : WOp → DB → Except ApiError (Topic × DB)
  | .submit user id, db => submitForReview user id db
  | .approve user id, db => approveTopic user id db
  | .publish user id now, db => publishTopic user id now db
  | .reject user id reason, db => rejectTopic user id reason db
  | .archive user id, db => archiveTopic user id db

/-- The audit action tag each workflow route writes. -/
def actionName : WOp → String
  | .submit _ _ => "SUBMIT_REVIEW"
  | .approve _ _ => "APPROVE"
  | .publish _ _ _ => "PUBLISH"
  | .reject _ _ _ => "REJECT"
  | .archive _ _ => "ARCHIVE"

/-- Run one workflow call: a failed request leaves the database unchanged. -/
def runW (w : WOp) (db : DB) : DB :=
  match applyW w db with
  | .ok r => r.2
  | .error _ => db

def runWs (ws : List WOp) (db : DB) : DB :=
  ws.foldl (fun d w => runW w d) db

def statusOf (db : DB) (id : Nat) : Option ContentStatus :=
  (findTopic db id).map (fun t => t.status)

/-- The transition edges exactly as claim C2 states them: submit, approve,
publish (from APPROVED or DRAFT), reject only from IN_REVIEW, archive from
anywhere, and ARCHIVED terminal (no outgoing edge at all). -/
def claimedEdge (s sNew : ContentStatus) : Bool :=
  !(s == .ARCHIVED) &&
    ((s == .DRAFT && sNew == .IN_REVIEW) ||
     (s == .IN_REVIEW && sNew == .APPROVED) ||
     ((s == .APPROVED || s == .DRAFT) && sNew == .PUBLISHED) ||
     (s == .IN_REVIEW && sNew == .DRAFT) ||
     (sNew == .ARCHIVED))

/-- The transition edges the code actually implements: as claimed, except
that reject moves to DRAFT from any state (the route has no status guard),
so ARCHIVED is not terminal. -/
def actualEdge (s sNew : ContentStatus) : Prop :=
  (s = .DRAFT ∧ sNew = .IN_REVIEW) ∨
  (s = .IN_REVIEW ∧ sNew = .APPROVED) ∨
  ((s = .APPROVED ∨ s = .DRAFT) ∧ sNew = .PUBLISHED) ∨
  sNew = .DRAFT ∨ sNew = .ARCHIVED

/-- `actualEdge` lifted to the optional status of a topic id. -/
def stepRelO (a b : Option ContentStatus) : Prop :=
  ∃ s sNew, a = some s ∧ b = some sNew ∧ actualEdge s sNew

-- ============= concrete fixtures =============

def uAdmin : User := ⟨1, .ADMIN⟩
def uMgr : User := ⟨2, .MANAGER⟩
def uContrib : User := ⟨3, .CONTRIBUTOR⟩
def uStudent : User := ⟨4, .STUDENT⟩

def ch0 : Chapter := ⟨10, 1, "Arrays", "arrays", none, 0, .PUBLISHED, true⟩

def t0 : Topic :=
  { id := 20, chapterId := 10, title := "Intro", slug := "intro",
    content := "x", excerpt := "x", order := 0, status := .DRAFT,
    isVisible := true, metaTitle := none, metaDescription := none,
    scheduledAt := none, publishedAt := none, createdById := 3 }

def db0 : DB :=
  { subjects := [1], chapters := [ch0], topics := [t0],
    versions := [⟨20, 1, "x", "Initial version", 3⟩], auditLog := [] }

def dbArch : DB := { db0 with topics := [{ t0 with status := .ARCHIVED }] }

def db2subj : DB := { db0 with subjects := [1, 2] }

def dbHidden : DB :=
  { db0 with topics := [{ t0 with status := .PUBLISHED, isVisible := false }] }

def tA : Topic := { t0 with id := 21, title := "A", slug := "a", order := 0 }
def tB : Topic := { t0 with id := 22, title := "B", slug := "b", order := 1 }
def tC : Topic := { t0 with id := 23, title := "C", slug := "c", order := 2 }

def dbABC : DB := { db0 with topics := [tA, tB, tC], versions := [] }

def dbX : DB := { db2subj with chapters := [{ ch0 with order := 5 }] }

-- ============= shared lemmas =============

@[simp] lemma versions_setTopic (db : DB) (id : Nat) (t : Topic) :
    (setTopic db id t).versions = db.versions := rfl

@[simp] lemma auditLog_setTopic (db : DB) (id : Nat) (t : Topic) :
    (setTopic db id t).auditLog = db.auditLog := rfl

@[simp] lemma chapters_setTopic (db : DB) (id : Nat) (t : Topic) :
    (setTopic db id t).chapters = db.chapters := rfl

@[simp] lemma versions_addAudit (db : DB) (a b : String) (c : Nat) (d : String)
    (e : Nat) : (addAudit db a b c d e).versions = db.versions := rfl

@[simp] lemma topics_addAudit (db : DB) (a b : String) (c : Nat) (d : String)
    (e : Nat) : (addAudit db a b c d e).topics = db.topics := rfl

@[simp] lemma auditLog_addAudit (db : DB) (a b : String) (c : Nat) (d : String)
    (e : Nat) : (addAudit db a b c d e).auditLog =
      db.auditLog ++ [⟨a, b, c, d, e⟩] := rfl

lemma requireRole_ok_of_mem {roles : List UserRole} {u : User}
    (h : u.role ∈ roles) : requireRole roles (some u) = .ok u := by
  simp [requireRole, List.elem_eq_true_of_mem h, h]

lemma requireRole_contrib_manager (u : User) (h : u.role = .CONTRIBUTOR) :
    requireRole managerRoles (some u) = .error (.forbidden
      "Access denied. Required roles: SUPER_ADMIN, ADMIN, MANAGER") := by
  obtain ⟨uid, r⟩ := u
  cases h
  rfl

lemma id_of_findTopic {db : DB} {id : Nat} {t : Topic}
    (h : findTopic db id = some t) : t.id = id := by
  have := List.find?_some h
  simpa using this

lemma mem_of_findTopic {db : DB} {id : Nat} {t : Topic}
    (h : findTopic db id = some t) : t ∈ db.topics :=
  List.mem_of_find?_eq_some h

/-- The effect of a keyed row update on a keyed row lookup. -/
lemma find?_map_ite (ts : List Topic) (iid : Nat) (topic : Topic)
    (hid : topic.id = iid) (tid : Nat) :
    (ts.map (fun t => if t.id == iid then topic else t)).find?
        (fun t => t.id == tid)
      = if tid = iid then
          (ts.find? (fun t => t.id == tid)).map (fun _ => topic)
        else ts.find? (fun t => t.id == tid) := by
  induction ts with
  | nil => by_cases h : tid = iid <;> simp [h]
  | cons t rest ih =>
    simp only [List.map_cons]
    by_cases h1 : t.id = iid
    · have hf : (if (t.id == iid) = true then topic else t) = topic := by
        simp [h1]
      rw [hf]
      by_cases h2 : tid = iid
      · have hp : (topic.id == tid) = true := by simp [hid, h2]
        have hpt : (t.id == tid) = true := by simp [h1, h2]
        rw [List.find?_cons_of_pos (p := fun x : Topic => x.id == tid) _ hp, if_pos h2,
          List.find?_cons_of_pos (p := fun x : Topic => x.id == tid) _ hpt]
        simp
      · have hp : ¬((topic.id == tid) = true) := by
          simp only [beq_iff_eq, hid]
          exact fun hh => h2 hh.symm
        have hpt : ¬((t.id == tid) = true) := by
          simp only [beq_iff_eq, h1]
          exact fun hh => h2 hh.symm
        rw [List.find?_cons_of_neg (p := fun x : Topic => x.id == tid) _ hp, if_neg h2,
          List.find?_cons_of_neg (p := fun x : Topic => x.id == tid) _ hpt]
        have h6 := ih
        rw [if_neg h2] at h6
        exact h6
    · have hf : (if (t.id == iid) = true then topic else t) = t := by
        simp [h1]
      rw [hf]
      by_cases h2 : t.id = tid
      · have h5 : tid ≠ iid := fun hh => h1 (by rw [h2, hh])
        rw [List.find?_cons_of_pos (p := fun x : Topic => x.id == tid) _ (by simp [h2]), if_neg h5,
          List.find?_cons_of_pos (p := fun x : Topic => x.id == tid) _ (by simp [h2])]
      · rw [List.find?_cons_of_neg (p := fun x : Topic => x.id == tid) _ (by simp [h2]),
          List.find?_cons_of_neg (p := fun x : Topic => x.id == tid) _ (by simp [h2])]
        by_cases h3 : tid = iid
        · have h6 := ih
          rw [if_pos h3] at h6
          rw [if_pos h3, h6]
        · have h6 := ih
          rw [if_neg h3] at h6
          rw [if_neg h3, h6]

lemma findTopic_setTopic (db : DB) (iid : Nat) (topic : Topic)
    (hid : topic.id = iid) (tid : Nat) :
    findTopic (setTopic db iid topic) tid
      = if tid = iid then (findTopic db tid).map (fun _ => topic)
        else findTopic db tid := by
  have h7 := find?_map_ite db.topics iid topic hid tid
  simpa [findTopic, setTopic] using h7

@[simp] lemma topics_withVersions (db : DB) (vs : List TopicVersion) :
    ({ db with versions := vs } : DB).topics = db.topics := rfl

@[simp] lemma auditLog_withVersions (db : DB) (vs : List TopicVersion) :
    ({ db with versions := vs } : DB).auditLog = db.auditLog := rfl

lemma foldr_max_append_singleton (xs : List Nat) (a : Nat) :
    (xs ++ [a]).foldr max 0 = max (xs.foldr max 0) a := by
  induction xs with
  | nil => simp
  | cons x rest ih => simp [ih, Nat.max_assoc]

lemma latestVersionNum_append (dbA dbB : DB) (tid : Nat) (ver : TopicVersion)
    (hts : (ver.topicId == tid) = true)
    (h : dbB.versions = dbA.versions ++ [ver]) :
    latestVersionNum dbB tid = max (latestVersionNum dbA tid) ver.version := by
  simp only [latestVersionNum, topicVersionNums, h]
  rw [List.filter_append]
  have h1 : List.filter (fun v => v.topicId == tid) [ver] = [ver] := by
    simp [hts]
  rw [h1, List.map_append,
    show List.map (fun v : TopicVersion => v.version) [ver] = [ver.version]
      from rfl,
    foldr_max_append_singleton]

lemma topicVersionNums_append_other (dbA dbB : DB) (tid : Nat)
    (ver : TopicVersion) (hts : (ver.topicId == tid) = false)
    (h : dbB.versions = dbA.versions ++ [ver]) :
    topicVersionNums dbB tid = topicVersionNums dbA tid := by
  simp only [topicVersionNums, h]
  rw [List.filter_append]
  have h1 : List.filter (fun v => v.topicId == tid) [ver] = [] := by
    simp [List.filter_cons, hts]
  rw [h1, List.append_nil]

-- ============= C10 =============

/-- C10: for an unauthenticated caller or one below contributor, reading a
missing chapter/topic and reading an existing but hidden (not visible, or not
PUBLISHED) chapter/topic produce the identical NotFound error, so hidden
content is indistinguishable from absent content. -/
theorem C10_hidden_indistinguishable (user : Option User)
    (h : isAdminUser user = false) (db : DB) :
    (∀ id, findChapter db id = none →
      getChapter user id db = .error (.notFound "Chapter not found")) ∧
    (∀ id c, findChapter db id = some c →
      (c.isVisible = false ∨ c.status ≠ .PUBLISHED) →
      getChapter user id db = .error (.notFound "Chapter not found")) ∧
    (∀ id, findTopic db id = none →
      getTopic user id db = .error (.notFound "Topic not found")) ∧
    (∀ id t, findTopic db id = some t →
      (t.isVisible = false ∨ t.status ≠ .PUBLISHED) →
      getTopic user id db = .error (.notFound "Topic not found")) := by
  refine ⟨?_, ?_, ?_, ?_⟩
  · intro id hf
    simp [getChapter, hf]
  · intro id c hf hvis
    rcases hvis with hv | hs
    · simp [getChapter, hf, h, hv]
    · simp [getChapter, hf, h, hs]
  · intro id hf
    simp [getTopic, hf]
  · intro id t hf hvis
    rcases hvis with hv | hs
    · simp [getTopic, hf, h, hv]
    · simp [getTopic, hf, h, hs]

theorem C10_witness :
    getTopic (some uStudent) 20 dbHidden = .error (.notFound "Topic not found")
      ∧ getTopic (some uStudent) 999 dbHidden
        = .error (.notFound "Topic not found") :=
  ⟨(C10_hidden_indistinguishable (some uStudent) (by decide) dbHidden).2.2.2 20
      { t0 with status := .PUBLISHED, isVisible := false } (by decide)
      (Or.inl (by decide)),
    (C10_hidden_indistinguishable (some uStudent) (by decide) dbHidden).2.2.1 999
      (by decide)⟩

-- ============= C7 =============

/-- C7: the submit route's gate admits contributor-or-above, while approve,
publish, reject and archive require manager-or-above; a CONTRIBUTOR caller is
rejected with Forbidden by all four of those, yet can submit a DRAFT topic
for review. -/
theorem C7_contributor_separation (u : User) :
    (u.role ∈ contributorRoles → requireRole contributorRoles (some u) = .ok u) ∧
    (u.role ∈ managerRoles → requireRole managerRoles (some u) = .ok u) ∧
    (u.role = .CONTRIBUTOR → ∀ id db now reason,
      approveTopic (some u) id db = .error (.forbidden
        "Access denied. Required roles: SUPER_ADMIN, ADMIN, MANAGER") ∧
      publishTopic (some u) id now db = .error (.forbidden
        "Access denied. Required roles: SUPER_ADMIN, ADMIN, MANAGER") ∧
      rejectTopic (some u) id reason db = .error (.forbidden
        "Access denied. Required roles: SUPER_ADMIN, ADMIN, MANAGER") ∧
      archiveTopic (some u) id db = .error (.forbidden
        "Access denied. Required roles: SUPER_ADMIN, ADMIN, MANAGER") ∧
      (∀ t, findTopic db id = some t → t.status = .DRAFT →
        ∃ r, submitForReview (some u) id db = .ok r)) := by
  refine ⟨fun hm => requireRole_ok_of_mem hm,
    fun hm => requireRole_ok_of_mem hm, ?_⟩
  intro hc id db now reason
  have hm := requireRole_contrib_manager u hc
  have hok : requireRole contributorRoles (some u) = .ok u :=
    requireRole_ok_of_mem (by simp [contributorRoles, hc])
  refine ⟨by simp [approveTopic, hm], by simp [publishTopic, hm],
    by simp [rejectTopic, hm], by simp [archiveTopic, hm], ?_⟩
  intro t hf hd
  exact ⟨({ t with status := .IN_REVIEW },
    addAudit (setTopic db id { t with status := .IN_REVIEW }) "SUBMIT_REVIEW"
      "Topic" id t.title u.id), by simp [submitForReview, hok, hf, hd]⟩

theorem C7_witness :
    approveTopic (some uContrib) 20 db0 = .error (.forbidden
      "Access denied. Required roles: SUPER_ADMIN, ADMIN, MANAGER") ∧
    requireRole contributorRoles (some uContrib) = .ok uContrib :=
  ⟨((C7_contributor_separation uContrib).2.2 rfl 20 db0 0 none).1,
    (C7_contributor_separation uContrib).1 (by decide)⟩

-- ============= C9 =============

/-- C9: PATCH /topics/:id performs no transition-legality check: any caller
passing the contributor-or-above gate can move an existing topic from any
status to any supplied status (including out of ARCHIVED, and straight to
PUBLISHED), and `publishedAt` is stamped with the current time exactly when
the topic thereby first enters PUBLISHED from a different status. -/
theorem C9_update_bypasses_workflow (u : User)
    (hrole : u.role ∈ contributorRoles) (db : DB) (id : Nat) (t : Topic)
    (ht : findTopic db id = some t) (sNew : ContentStatus)
    (data : UpdateTopicInput) (hs : data.status = some sNew)
    (changelog : Option String) (now : Nat) :
    ∃ topic db2,
      updateTopic (some u) id data changelog now db = .ok (topic, db2) ∧
      topic.status = sNew ∧ statusOf db2 id = some sNew ∧
      topic.publishedAt = (if sNew = .PUBLISHED ∧ t.status ≠ .PUBLISHED
        then some now else t.publishedAt) := by
  have hr := requireRole_ok_of_mem hrole
  have hid : (applyTopicUpdate t data now).id = id := by
    simp [applyTopicUpdate, id_of_findTopic ht]
  have hst : (applyTopicUpdate t data now).status = sNew := by
    simp [applyTopicUpdate, hs]
  have hfind : ∀ vs : List TopicVersion,
      findTopic { setTopic db id (applyTopicUpdate t data now) with
        versions := vs } id = some (applyTopicUpdate t data now) := by
    intro vs
    show findTopic (setTopic db id (applyTopicUpdate t data now)) id = _
    rw [findTopic_setTopic db id _ hid id, if_pos rfl, ht]
    rfl
  have hpub : (applyTopicUpdate t data now).publishedAt =
      (if sNew = .PUBLISHED ∧ t.status ≠ .PUBLISHED
        then some now else t.publishedAt) := by
    by_cases h1 : sNew = .PUBLISHED <;> by_cases h2 : t.status = .PUBLISHED <;>
      simp [applyTopicUpdate, hs, h1, h2]
  have hEq : ∃ db2,
      updateTopic (some u) id data changelog now db
        = .ok (applyTopicUpdate t data now, db2) ∧
      findTopic db2 id = some (applyTopicUpdate t data now) := by
    cases hdc : data.content with
    | none =>
      refine ⟨addAudit (setTopic db id (applyTopicUpdate t data now)) "UPDATE"
        "Topic" id (applyTopicUpdate t data now).title u.id, ?_, ?_⟩
      · simp only [updateTopic, hr, ht, hdc]
      · show findTopic (setTopic db id (applyTopicUpdate t data now)) id = _
        rw [findTopic_setTopic db id _ hid id, if_pos rfl, ht]
        rfl
    | some c =>
      by_cases hne : (!(c == "") && !(c == t.content)) = true
      · refine ⟨addAudit { setTopic db id (applyTopicUpdate t data now) with
          versions := db.versions ++ [⟨id, latestVersionNum db id + 1, c,
            defaultChangelog changelog, u.id⟩] } "UPDATE" "Topic" id
          (applyTopicUpdate t data now).title u.id, ?_, ?_⟩
        · simp only [updateTopic, hr, ht, hdc]
          rw [if_pos hne]
          rfl
        · show findTopic (setTopic db id (applyTopicUpdate t data now)) id = _
          rw [findTopic_setTopic db id _ hid id, if_pos rfl, ht]
          rfl
      · refine ⟨addAudit (setTopic db id (applyTopicUpdate t data now))
          "UPDATE" "Topic" id (applyTopicUpdate t data now).title u.id,
          ?_, ?_⟩
        · simp only [updateTopic, hr, ht, hdc]
          rw [if_neg hne]
        · show findTopic (setTopic db id (applyTopicUpdate t data now)) id = _
          rw [findTopic_setTopic db id _ hid id, if_pos rfl, ht]
          rfl
  obtain ⟨db2, h1, h2⟩ := hEq
  exact ⟨applyTopicUpdate t data now, db2, h1, hst,
    by simp [statusOf, h2, hst], hpub⟩

theorem C9_witness :
    ∃ topic db2,
      updateTopic (some uContrib) 20
          { status := some .PUBLISHED } none 7 dbArch = .ok (topic, db2) ∧
      topic.status = .PUBLISHED ∧ statusOf db2 20 = some .PUBLISHED ∧
      topic.publishedAt = (if ContentStatus.PUBLISHED = .PUBLISHED ∧
        ContentStatus.ARCHIVED ≠ .PUBLISHED then some 7 else none) := by
  have h := C9_update_bypasses_workflow uContrib (by decide) dbArch 20
    { t0 with status := .ARCHIVED } (by decide) .PUBLISHED
    { status := some .PUBLISHED } rfl none 7
  simpa using h

-- ============= C4 =============

/-- C4: restoring a version fails NotFound when the `(topic, version)` pair is
absent; when present, it overwrites the topic's content with that version's
content and appends exactly one new TopicVersion at current max + 1 carrying
that content and changelog "Restored from version {v}", leaving all existing
versions in place, so the maximum version number never decreases. -/
theorem C4_restore_appends (u : User) (hrole : u.role ∈ managerRoles)
    (db : DB) (id v : Nat) :
    (findVersion db id v = none →
      restoreVersion (some u) id v db = .error (.notFound "Version not found")) ∧
    (∀ tv t, findVersion db id v = some tv → findTopic db id = some t →
      ∃ topic db2, restoreVersion (some u) id v db = .ok (topic, db2) ∧
        topic.content = tv.content ∧
        db2.versions = db.versions ++
          [⟨id, latestVersionNum db id + 1, tv.content,
            "Restored from version " ++ toString v, u.id⟩] ∧
        findTopic db2 id = some topic ∧
        latestVersionNum db2 id = latestVersionNum db id + 1) := by
  have hr := requireRole_ok_of_mem hrole
  constructor
  · intro hnone
    simp [restoreVersion, hr, hnone]
  · intro tv t hv ht
    have hid : ({ t with content := tv.content } : Topic).id = id := by
      simpa using id_of_findTopic ht
    refine ⟨{ t with content := tv.content },
      addAudit { setTopic db id { t with content := tv.content } with
        versions := db.versions ++ [⟨id, latestVersionNum db id + 1,
          tv.content, "Restored from version " ++ toString v, u.id⟩] }
        "RESTORE" "Topic" id ({ t with content := tv.content } : Topic).title
        u.id, ?_, rfl, rfl, ?_, ?_⟩
    · simp only [restoreVersion, hr, hv, ht]
      rfl
    · show findTopic (setTopic db id { t with content := tv.content }) id = _
      rw [findTopic_setTopic db id _ hid id, if_pos rfl, ht]
      rfl
    · exact (latestVersionNum_append db _ id _ (by simp) rfl).trans
        (Nat.max_eq_right (Nat.le_succ _))

theorem C4_witness :
    (restoreVersion (some uMgr) 20 7 db0
        = .error (.notFound "Version not found")) ∧
    ∃ topic db2, restoreVersion (some uMgr) 20 1 db0 = .ok (topic, db2) ∧
      topic.content = "x" ∧
      db2.versions = db0.versions ++
        [⟨20, latestVersionNum db0 20 + 1, "x", "Restored from version 1", 2⟩] ∧
      findTopic db2 20 = some topic ∧
      latestVersionNum db2 20 = latestVersionNum db0 20 + 1 := by
  constructor
  · exact (C4_restore_appends uMgr (by decide) db0 20 7).1 (by decide)
  · exact (C4_restore_appends uMgr (by decide) db0 20 1).2
      ⟨20, 1, "x", "Initial version", 3⟩ t0 (by decide) (by decide)

-- ============= C2 counterexample =============

/-- C2 fails as stated: on an ARCHIVED topic, the reject route succeeds and
moves the status to DRAFT, an outgoing transition from ARCHIVED that the
claimed edge set forbids (ARCHIVED is claimed terminal, and reject is claimed
legal only from IN_REVIEW). -/
theorem C2_counterexample :
    statusOf dbArch 20 = some .ARCHIVED ∧
    (applyW (.reject (some uMgr) 20 none) dbArch).isOk = true ∧
    statusOf (runW (.reject (some uMgr) 20 none) dbArch) 20 = some .DRAFT ∧
    claimedEdge .ARCHIVED .DRAFT = false := by decide

-- ============= C3 =============

/-- C3 fails as stated: with stored content "x", an update supplying
content "" (which differs from "x") succeeds and overwrites the topic's
content, yet appends no TopicVersion, because the guard
`data.content && data.content !== existing.content` treats the empty string
as falsy. -/
theorem C3_counterexample :
    (findTopic db0 20).map (fun t => t.content) = some "x" ∧
    (applyTopicOp (.update (some uContrib) 20 { content := some "" } none 5)
      db0).isOk = true ∧
    (runTopicOp (.update (some uContrib) 20 { content := some "" } none 5)
      db0).versions = db0.versions ∧
    (findTopic (runTopicOp (.update (some uContrib) 20
      { content := some "" } none 5) db0) 20).map (fun t => t.content)
      = some "" := by decide

/-- C3 (amended): an update on an existing topic always succeeds past the
role gate, and appends a new TopicVersion at previous max + 1 (content as
supplied, changelog as supplied with absent or empty defaulting to
"Content updated") if and only if the supplied content is non-empty and
differs from the stored content; otherwise the version list is unchanged. -/
theorem C3_amended_version_append (u : User)
    (hrole : u.role ∈ contributorRoles) (db : DB) (id : Nat) (t : Topic)
    (ht : findTopic db id = some t) (data : UpdateTopicInput)
    (changelog : Option String) (now : Nat) :
    ∃ topic db2,
      updateTopic (some u) id data changelog now db = .ok (topic, db2) ∧
      db2.versions = db.versions ++
        (match data.content with
         | some c =>
           if (!(c == "") && !(c == t.content)) = true then
             [⟨id, latestVersionNum db id + 1, c, defaultChangelog changelog,
               u.id⟩]
           else []
         | none => []) := by
  have hr := requireRole_ok_of_mem hrole
  cases hdc : data.content with
  | none =>
    refine ⟨applyTopicUpdate t data now,
      addAudit (setTopic db id (applyTopicUpdate t data now)) "UPDATE"
        "Topic" id (applyTopicUpdate t data now).title u.id, ?_, by simp⟩
    simp only [updateTopic, hr, ht, hdc]
  | some c =>
    by_cases hne : (!(c == "") && !(c == t.content)) = true
    · refine ⟨applyTopicUpdate t data now,
        addAudit { setTopic db id (applyTopicUpdate t data now) with
          versions := db.versions ++ [⟨id, latestVersionNum db id + 1, c,
            defaultChangelog changelog, u.id⟩] } "UPDATE" "Topic" id
        (applyTopicUpdate t data now).title u.id, ?_, by simp [hne]⟩
      simp only [updateTopic, hr, ht, hdc]
      rw [if_pos hne]
      rfl
    · refine ⟨applyTopicUpdate t data now,
        addAudit (setTopic db id (applyTopicUpdate t data now)) "UPDATE"
          "Topic" id (applyTopicUpdate t data now).title u.id, ?_, ?_⟩
      · simp only [updateTopic, hr, ht, hdc]
        rw [if_neg hne]
      · simp only [hne, if_neg, versions_addAudit, versions_setTopic]
        simp [hne]

theorem C3_amended_witness :
    ∃ topic db2,
      updateTopic (some uContrib) 20 { content := some "" } none 5 db0
        = .ok (topic, db2) ∧
      db2.versions = db0.versions ++
        (match ({ content := some "" } : UpdateTopicInput).content with
         | some c =>
           if (!(c == "") && !(c == t0.content)) = true then
             [⟨20, latestVersionNum db0 20 + 1, c, defaultChangelog none, 3⟩]
           else []
         | none => []) :=
  C3_amended_version_append uContrib (by decide) db0 20 t0 (by decide)
    { content := some "" } none 5

-- ============= C5 =============

/-- C5 fails as stated: creating a chapter under a nonexistent subject fails
with the BadRequest error kind ("Subject not found"), not with NotFound. -/
theorem C5_counterexample :
    db0.subjects.contains 9 = false ∧
    createChapter (some uAdmin) ⟨"T", "t", none, none, 9⟩ 99 db0
      = .error (.badRequest "Subject not found") ∧
    kindOf (.badRequest "Subject not found") ≠ ErrKind.KNotFound := by decide

/-- C5 (amended): createChapter fails with BadRequest "Subject not found"
(not NotFound) when the subject is absent; with the subject present it fails
with Conflict when the slug already exists in the same subject and succeeds
otherwise (in particular, under a different subject with the same slug),
assigning order = max(existing order in subject) + 1 when order is omitted,
or 0 when the subject has no chapters. -/
theorem C5_amended_createChapter (u : User)
    (hrole : u.role ∈ contributorRoles) (data : CreateChapterInput)
    (newId : Nat) (db : DB) :
    (db.subjects.contains data.subjectId = false →
      createChapter (some u) data newId db
        = .error (.badRequest "Subject not found")) ∧
    (db.subjects.contains data.subjectId = true →
      (db.chapters.any (fun c => c.id == newId)) = false →
      (db.chapters.any (fun c => c.subjectId == data.subjectId
        && c.slug == data.slug)) = true →
      createChapter (some u) data newId db = .error
        (.conflict "Unique constraint failed on the fields: (subjectId, slug)")) ∧
    (db.subjects.contains data.subjectId = true →
      (db.chapters.any (fun c => c.id == newId)) = false →
      (db.chapters.any (fun c => c.subjectId == data.subjectId
        && c.slug == data.slug)) = false →
      ∃ ch db2, createChapter (some u) data newId db = .ok (ch, db2) ∧
        ch.slug = data.slug ∧ ch.subjectId = data.subjectId ∧
        ch.order = data.order.getD (nextChapterOrder db data.subjectId) ∧
        db2.chapters = db.chapters ++ [ch]) ∧
    (∀ sid, db.chapters.filter (fun c => c.subjectId == sid) = [] →
      nextChapterOrder db sid = 0) ∧
    (∀ sid o, ((db.chapters.filter (fun c => c.subjectId == sid)).map
        (fun c => c.order)).max? = some o →
      nextChapterOrder db sid = o + 1) := by
  have hr := requireRole_ok_of_mem hrole
  refine ⟨?_, ?_, ?_, ?_, ?_⟩
  · intro habs
    have h1 : ¬ data.subjectId ∈ db.subjects := by simpa using habs
    simp [createChapter, hr, h1]
  · intro hsub hpk hdup
    have h1 : data.subjectId ∈ db.subjects := by simpa using hsub
    have h2 : ¬ ∃ x ∈ db.chapters, x.id = newId := by simpa using hpk
    have h3 : ∃ x ∈ db.chapters, x.subjectId = data.subjectId
        ∧ x.slug = data.slug := by simpa using hdup
    simp [createChapter, hr, h1, h2, h3]
  · intro hsub hpk hdup
    have hEq : createChapter (some u) data newId db = .ok
        (⟨newId, data.subjectId, data.title, data.slug, data.description,
          data.order.getD (nextChapterOrder db data.subjectId), .DRAFT, true⟩,
         addAudit { db with chapters := db.chapters ++
           [⟨newId, data.subjectId, data.title, data.slug, data.description,
             data.order.getD (nextChapterOrder db data.subjectId), .DRAFT,
             true⟩] } "CREATE" "Chapter" newId data.title u.id) := by
      simp only [createChapter, hr]
      rw [if_pos hsub, if_neg (by simp [hpk]), if_neg (by simp [hdup])]
    exact ⟨_, _, hEq, rfl, rfl, rfl, rfl⟩
  · intro sid hempty
    simp [nextChapterOrder, hempty]
  · intro sid o hmax
    simp [nextChapterOrder, hmax]

theorem C5_amended_witness :
    (createChapter (some uAdmin) ⟨"T", "t", none, none, 9⟩ 99 db0
      = .error (.badRequest "Subject not found")) ∧
    (createChapter (some uAdmin) ⟨"T", "arrays", none, none, 1⟩ 99 db2subj
      = .error
        (.conflict "Unique constraint failed on the fields: (subjectId, slug)")) ∧
    (∃ ch db2, createChapter (some uAdmin) ⟨"T", "arrays", none, none, 2⟩ 99
        db2subj = .ok (ch, db2) ∧
      ch.slug = "arrays" ∧ ch.subjectId = 2 ∧
      ch.order = (none : Option Int).getD (nextChapterOrder db2subj 2) ∧
      db2.chapters = db2subj.chapters ++ [ch]) ∧
    nextChapterOrder db2subj 2 = 0 :=
  ⟨(C5_amended_createChapter uAdmin (by decide) ⟨"T", "t", none, none, 9⟩ 99
      db0).1 (by decide),
    (C5_amended_createChapter uAdmin (by decide) ⟨"T", "arrays", none, none, 1⟩
      99 db2subj).2.1 (by decide) (by decide) (by decide),
    (C5_amended_createChapter uAdmin (by decide) ⟨"T", "arrays", none, none, 2⟩
      99 db2subj).2.2.1 (by decide) (by decide) (by decide),
    (C5_amended_createChapter uAdmin (by decide) ⟨"T", "arrays", none, none, 2⟩
      99 db2subj).2.2.2.1 2 (by decide)⟩

-- ============= C6 counterexample =============

/-- C6 fails as stated: the approve route called by a manager on an existing
DRAFT topic fails its transition guard and writes no audit entry at all
(the audit write sits after the guard), not exactly one. -/
theorem C6_counterexample :
    (findTopic db0 20).isSome = true ∧
    (applyW (.approve (some uMgr) 20) db0).isOk = false ∧
    (runW (.approve (some uMgr) 20) db0).auditLog.length
      = db0.auditLog.length := by decide

-- ============= C8 counterexample =============

/-- C8 fails as stated: the reorder routes are not scoped to the subject (or
chapter) named in the URL — reordering under subject 2 renumbers a chapter
that belongs to subject 1. -/
theorem C8_counterexample :
    (findChapter dbX 10).map (fun c => (c.subjectId, c.order))
      = some ((1 : Nat), (5 : Int)) ∧
    (match reorderChapters (some uAdmin) 2 [10] dbX with
     | .ok db2 => (findChapter db2 10).map (fun c => c.order)
     | .error _ => none) = some 0 := by decide

-- ============= C2 amended =============

lemma statusOf_addAudit_setTopic (db : DB) (id : Nat) (topic : Topic)
    (hid : topic.id = id) (a b : String) (c : Nat) (d : String) (e : Nat)
    (tid : Nat) :
    statusOf (addAudit (setTopic db id topic) a b c d e) tid
      = if tid = id then (findTopic db tid).map (fun _ => topic.status)
        else statusOf db tid := by
  show statusOf (setTopic db id topic) tid = _
  rw [statusOf, findTopic_setTopic db id topic hid tid]
  by_cases h : tid = id
  · simp [h, statusOf, Option.map_map]
    rfl
  · simp [h, statusOf]

/-- The success branch of every workflow route changes only the targeted
topic's status, and along an implemented edge. -/
lemma step_core (db : DB) (id : Nat) (existing topic : Topic) (tid : Nat)
    (hf : findTopic db id = some existing) (hid : topic.id = id)
    (hedge : actualEdge existing.status topic.status)
    (a b : String) (c : Nat) (d : String) (e : Nat) :
    statusOf (addAudit (setTopic db id topic) a b c d e) tid
        = statusOf db tid ∨
      stepRelO (statusOf db tid)
        (statusOf (addAudit (setTopic db id topic) a b c d e) tid) := by
  rw [statusOf_addAudit_setTopic db id topic hid a b c d e tid]
  by_cases h : tid = id
  · right
    subst h
    rw [if_pos rfl, hf]
    exact ⟨existing.status, topic.status, by simp [statusOf, hf], rfl, hedge⟩
  · left
    rw [if_neg h]

lemma statusOf_runW_step (w : WOp) (db : DB) (tid : Nat) :
    statusOf (runW w db) tid = statusOf db tid ∨
      stepRelO (statusOf db tid) (statusOf (runW w db) tid) := by
  cases hE0 : applyW w db with
  | error e =>
    left
    simp [runW, hE0]
  | ok r =>
    have hrw : runW w db = r.2 := by simp [runW, hE0]
    rw [hrw]
    cases w with
    | submit user id =>
      simp only [applyW, submitForReview] at hE0
      cases hreq : requireRole contributorRoles user with
      | error e => rw [hreq] at hE0; cases hE0
      | ok u =>
        rw [hreq] at hE0
        cases hf : findTopic db id with
        | none => rw [hf] at hE0; cases hE0
        | some existing =>
          rw [hf] at hE0
          cases hg : existing.status == ContentStatus.DRAFT with
          | false =>
            simp only [hg, Bool.false_eq_true, if_false] at hE0
            cases hE0
          | true =>
            simp only [hg, if_true, Except.ok.injEq] at hE0
            rw [← hE0]
            exact step_core db id existing
              { existing with status := ContentStatus.IN_REVIEW } tid hf
              (by simpa using id_of_findTopic hf) (Or.inl ⟨by simpa using hg, rfl⟩) _ _ _ _ _
    | approve user id =>
      simp only [applyW, approveTopic] at hE0
      cases hreq : requireRole managerRoles user with
      | error e => rw [hreq] at hE0; cases hE0
      | ok u =>
        rw [hreq] at hE0
        cases hf : findTopic db id with
        | none => rw [hf] at hE0; cases hE0
        | some existing =>
          rw [hf] at hE0
          cases hg : existing.status == ContentStatus.IN_REVIEW with
          | false =>
            simp only [hg, Bool.false_eq_true, if_false] at hE0
            cases hE0
          | true =>
            simp only [hg, if_true, Except.ok.injEq] at hE0
            rw [← hE0]
            exact step_core db id existing
              { existing with status := ContentStatus.APPROVED } tid hf
              (by simpa using id_of_findTopic hf)
              (Or.inr (Or.inl ⟨by simpa using hg, rfl⟩)) _ _ _ _ _
    | publish user id now =>
      simp only [applyW, publishTopic] at hE0
      cases hreq : requireRole managerRoles user with
      | error e => rw [hreq] at hE0; cases hE0
      | ok u =>
        rw [hreq] at hE0
        cases hf : findTopic db id with
        | none => rw [hf] at hE0; cases hE0
        | some existing =>
          rw [hf] at hE0
          cases hg : (existing.status == ContentStatus.APPROVED
              || existing.status == ContentStatus.DRAFT) with
          | false =>
            simp only [hg, Bool.false_eq_true, if_false] at hE0
            cases hE0
          | true =>
            simp only [hg, if_true, Except.ok.injEq] at hE0
            rw [← hE0]
            exact step_core db id existing
              { existing with status := ContentStatus.PUBLISHED, publishedAt := some now }
              tid hf (by simpa using id_of_findTopic hf)
              (Or.inr (Or.inr (Or.inl ⟨by simpa using hg, rfl⟩))) _ _ _ _ _
    | reject user id reason =>
      simp only [applyW, rejectTopic] at hE0
      cases hreq : requireRole managerRoles user with
      | error e => rw [hreq] at hE0; cases hE0
      | ok u =>
        rw [hreq] at hE0
        cases hf : findTopic db id with
        | none => rw [hf] at hE0; cases hE0
        | some existing =>
          rw [hf] at hE0
          simp only [Except.ok.injEq] at hE0
          rw [← hE0]
          exact step_core db id existing
            { existing with status := ContentStatus.DRAFT } tid hf
            (by simpa using id_of_findTopic hf)
            (Or.inr (Or.inr (Or.inr (Or.inl rfl)))) _ _ _ _ _
    | archive user id =>
      simp only [applyW, archiveTopic] at hE0
      cases hreq : requireRole managerRoles user with
      | error e => rw [hreq] at hE0; cases hE0
      | ok u =>
        rw [hreq] at hE0
        cases hf : findTopic db id with
        | none => rw [hf] at hE0; cases hE0
        | some existing =>
          rw [hf] at hE0
          simp only [Except.ok.injEq] at hE0
          rw [← hE0]
          exact step_core db id existing
            { existing with status := ContentStatus.ARCHIVED } tid hf
            (by simpa using id_of_findTopic hf)
            (Or.inr (Or.inr (Or.inr (Or.inr rfl)))) _ _ _ _ _

lemma reach_runWs (ws : List WOp) (db : DB) (id : Nat) :
    Relation.ReflTransGen stepRelO (statusOf db id)
      (statusOf (runWs ws db) id) := by
  induction ws generalizing db with
  | nil => exact Relation.ReflTransGen.refl
  | cons w wt ih =>
    have h2 := ih (runW w db)
    have hrun : runWs (w :: wt) db = runWs wt (runW w db) := rfl
    rw [hrun]
    rcases statusOf_runW_step w db id with h1 | h1
    · rw [h1] at h2
      exact h2
    · exact Relation.ReflTransGen.trans (Relation.ReflTransGen.single h1) h2

/-- C2 (amended): along any sequence of workflow calls, a topic's status only
moves along the edges the code implements — submit DRAFT->IN_REVIEW, approve
IN_REVIEW->APPROVED, publish {APPROVED,DRAFT}->PUBLISHED, reject any->DRAFT
(no status guard, so ARCHIVED is not terminal), archive any->ARCHIVED; and
approve called by a manager-or-above caller on a DRAFT topic always fails
with the transition-guard BadRequest error and leaves the status unchanged. -/
theorem C2_amended_reachability (ws : List WOp) (db : DB) (id : Nat) :
    Relation.ReflTransGen stepRelO (statusOf db id)
      (statusOf (runWs ws db) id) ∧
    (∀ u t db1, u.role ∈ managerRoles → statusOf db1 t = some .DRAFT →
      approveTopic (some u) t db1
        = .error (.badRequest "Only topics in review can be approved") ∧
      statusOf (runW (.approve (some u) t) db1) t = some .DRAFT) := by
  refine ⟨reach_runWs ws db id, ?_⟩
  intro u t db1 hrole hst
  cases hf : findTopic db1 t with
  | none => rw [statusOf, hf] at hst; cases hst
  | some existing =>
    have he : existing.status = .DRAFT := by
      rw [statusOf, hf] at hst
      simpa using hst
    have herr : approveTopic (some u) t db1
        = .error (.badRequest "Only topics in review can be approved") := by
      simp [approveTopic, requireRole_ok_of_mem hrole, hf, he]
    refine ⟨herr, ?_⟩
    rw [runW, applyW, herr, statusOf, hf]
    simpa using he

theorem C2_amended_witness :
    Relation.ReflTransGen stepRelO (statusOf dbArch 20)
      (statusOf (runWs [.reject (some uMgr) 20 none] dbArch) 20) ∧
    (approveTopic (some uMgr) 20 db0
        = .error (.badRequest "Only topics in review can be approved") ∧
      statusOf (runW (.approve (some uMgr) 20) db0) 20 = some .DRAFT) :=
  ⟨(C2_amended_reachability [.reject (some uMgr) 20 none] dbArch 20).1,
    (C2_amended_reachability [] db0 20).2 uMgr 20 db0 (by decide) (by decide)⟩

-- ============= C6 amended =============

/-- C6 (amended): every workflow transition call that succeeds appends
exactly one AuditLogEntry, tagged with the action name of the route; a call
that fails (role gate, NotFound, or transition guard) leaves the database
unchanged and appends none. -/
theorem C6_amended_audit (w : WOp) (db : DB) :
    (∀ t db2, applyW w db = .ok (t, db2) →
      ∃ e, db2.auditLog = db.auditLog ++ [e] ∧ e.action = actionName w) ∧
    (∀ err, applyW w db = .error err → runW w db = db) := by
  constructor
  · intro t db2 h
    cases w with
    | submit user id =>
      simp only [applyW, submitForReview] at h
      cases hreq : requireRole contributorRoles user with
      | error e => rw [hreq] at h; cases h
      | ok u =>
        rw [hreq] at h
        cases hf : findTopic db id with
        | none => rw [hf] at h; cases h
        | some existing =>
          rw [hf] at h
          cases hg : existing.status == ContentStatus.DRAFT with
          | false => simp only [hg, Bool.false_eq_true, if_false] at h; cases h
          | true =>
            simp only [hg, if_true, Except.ok.injEq, Prod.mk.injEq] at h
            exact ⟨⟨"SUBMIT_REVIEW", "Topic", id, existing.title, u.id⟩,
              by rw [← h.2]; simp, rfl⟩
    | approve user id =>
      simp only [applyW, approveTopic] at h
      cases hreq : requireRole managerRoles user with
      | error e => rw [hreq] at h; cases h
      | ok u =>
        rw [hreq] at h
        cases hf : findTopic db id with
        | none => rw [hf] at h; cases h
        | some existing =>
          rw [hf] at h
          cases hg : existing.status == ContentStatus.IN_REVIEW with
          | false => simp only [hg, Bool.false_eq_true, if_false] at h; cases h
          | true =>
            simp only [hg, if_true, Except.ok.injEq, Prod.mk.injEq] at h
            exact ⟨⟨"APPROVE", "Topic", id, existing.title, u.id⟩,
              by rw [← h.2]; simp, rfl⟩
    | publish user id now =>
      simp only [applyW, publishTopic] at h
      cases hreq : requireRole managerRoles user with
      | error e => rw [hreq] at h; cases h
      | ok u =>
        rw [hreq] at h
        cases hf : findTopic db id with
        | none => rw [hf] at h; cases h
        | some existing =>
          rw [hf] at h
          cases hg : (existing.status == ContentStatus.APPROVED
              || existing.status == ContentStatus.DRAFT) with
          | false => simp only [hg, Bool.false_eq_true, if_false] at h; cases h
          | true =>
            simp only [hg, if_true, Except.ok.injEq, Prod.mk.injEq] at h
            exact ⟨⟨"PUBLISH", "Topic", id, existing.title, u.id⟩,
              by rw [← h.2]; simp, rfl⟩
    | reject user id reason =>
      simp only [applyW, rejectTopic] at h
      cases hreq : requireRole managerRoles user with
      | error e => rw [hreq] at h; cases h
      | ok u =>
        rw [hreq] at h
        cases hf : findTopic db id with
        | none => rw [hf] at h; cases h
        | some existing =>
          rw [hf] at h
          simp only [Except.ok.injEq, Prod.mk.injEq] at h
          exact ⟨⟨"REJECT", "Topic", id, existing.title, u.id⟩,
              by rw [← h.2]; simp, rfl⟩
    | archive user id =>
      simp only [applyW, archiveTopic] at h
      cases hreq : requireRole managerRoles user with
      | error e => rw [hreq] at h; cases h
      | ok u =>
        rw [hreq] at h
        cases hf : findTopic db id with
        | none => rw [hf] at h; cases h
        | some existing =>
          rw [hf] at h
          simp only [Except.ok.injEq, Prod.mk.injEq] at h
          exact ⟨⟨"ARCHIVE", "Topic", id, existing.title, u.id⟩,
              by rw [← h.2]; simp, rfl⟩
  · intro err h
    simp [runW, h]

def dbRev : DB := { db0 with topics := [{ t0 with status := .IN_REVIEW }] }

theorem C6_amended_witness :
    (∃ e, (addAudit (setTopic dbRev 20 { t0 with status := .APPROVED })
        "APPROVE" "Topic" 20 "Intro" 2).auditLog
      = dbRev.auditLog ++ [e] ∧
      e.action = actionName (.approve (some uMgr) 20)) ∧
    runW (.approve (some uMgr) 20) db0 = db0 :=
  ⟨(C6_amended_audit (.approve (some uMgr) 20) dbRev).1
      { t0 with status := .APPROVED }
      (addAudit (setTopic dbRev 20 { t0 with status := .APPROVED })
        "APPROVE" "Topic" 20 "Intro" 2) (by decide),
    (C6_amended_audit (.approve (some uMgr) 20) db0).2
      (.badRequest "Only topics in review can be approved") (by decide)⟩

-- ============= C8 amended =============

lemma foldl_map_comm {α β : Type} (g : β → α → α) (ps : List β)
    (xs : List α) :
    ps.foldl (fun acc p => acc.map (g p)) xs
      = xs.map (fun x => ps.foldl (fun y p => g p y) x) := by
  induction ps generalizing xs with
  | nil => simp
  | cons p pt ih =>
    simp only [List.foldl_cons]
    rw [ih, List.map_map]
    rfl

lemma perFold_not_mem {α : Type} (getId : α → Nat) (setOrd : α → Int → α)
    (x : α) (ids : List Nat) :
    ∀ k, ¬ getId x ∈ ids →
      (ids.enumFrom k).foldl
        (fun y p => if getId y == p.2 then setOrd y (Int.ofNat p.1) else y) x
        = x := by
  induction ids with
  | nil => intro k _; rfl
  | cons a t ih =>
    intro k h
    have h1 : getId x ≠ a := fun hh => h (by simp [hh])
    have h2 : ¬ getId x ∈ t := fun hm => h (List.mem_cons_of_mem a hm)
    simp only [List.enumFrom, List.foldl_cons]
    rw [if_neg (by simpa using h1)]
    exact ih (k + 1) h2

lemma perFold_mem {α : Type} (getId : α → Nat) (setOrd : α → Int → α)
    (hid : ∀ y o, getId (setOrd y o) = getId y) (ids : List Nat) :
    ∀ k x, ids.Nodup → getId x ∈ ids →
      (ids.enumFrom k).foldl
        (fun y p => if getId y == p.2 then setOrd y (Int.ofNat p.1) else y) x
        = setOrd x (Int.ofNat (k + ids.indexOf (getId x))) := by
  induction ids with
  | nil => intro k x _ hm; cases hm
  | cons a t ih =>
    intro k x hnd hm
    simp only [List.enumFrom, List.foldl_cons]
    by_cases ha : getId x = a
    · rw [if_pos (by simpa using ha)]
      have hnotin : ¬ getId (setOrd x (Int.ofNat k)) ∈ t := by
        rw [hid, ha]
        exact (List.nodup_cons.mp hnd).1
      rw [perFold_not_mem getId setOrd _ t (k + 1) hnotin]
      have hidx : (a :: t).indexOf (getId x) = 0 := by
        rw [ha]
        exact List.indexOf_cons_self a t
      rw [hidx, Nat.add_zero]
    · rw [if_neg (by simpa using ha)]
      have hm2 : getId x ∈ t := by
        rcases List.mem_cons.mp hm with h | h
        · exact absurd h ha
        · exact h
      rw [ih (k + 1) x (List.nodup_cons.mp hnd).2 hm2]
      have hidx : (a :: t).indexOf (getId x)
          = t.indexOf (getId x) + 1 := by
        rw [List.indexOf_cons_ne]
        exact fun hh => ha hh.symm
      rw [hidx]
      have harith : k + 1 + t.indexOf (getId x)
          = k + (t.indexOf (getId x) + 1) := by omega
      rw [harith]

/-- The reorder transaction assigns to every listed id the order equal to its
(unique) index in the list, and leaves unlisted rows unchanged. -/
lemma applyOrderList_eq {α : Type} (getId : α → Nat) (setOrd : α → Int → α)
    (hid : ∀ y o, getId (setOrd y o) = getId y)
    (xs : List α) (ids : List Nat) (hnd : ids.Nodup) :
    applyOrderList getId setOrd xs ids
      = xs.map (fun x => if getId x ∈ ids then
          setOrd x (Int.ofNat (ids.indexOf (getId x))) else x) := by
  unfold applyOrderList
  rw [show ids.enum = ids.enumFrom 0 from rfl, foldl_map_comm]
  congr 1
  funext x
  by_cases hm : getId x ∈ ids
  · rw [if_pos hm, perFold_mem getId setOrd hid ids 0 x hnd hm]
    norm_num
  · rw [if_neg hm, perFold_not_mem getId setOrd x ids 0 hm]

lemma any_map_id_pres {α : Type} (f : α → α) (getId : α → Nat)
    (hf : ∀ x, getId (f x) = getId x) (xs : List α) (i : Nat) :
    (xs.map f).any (fun x => getId x == i) = xs.any (fun x => getId x == i)
    := by
  rw [List.any_map]
  congr 1
  funext x
  simp [Function.comp, hf]

/-- C8 (amended): both reorder routes assign order = array index to every
listed id — keyed by id alone, regardless of the subject/chapter named in the
URL (no scoping) — leave unlisted rows untouched, and are idempotent; and the
concrete scenario holds: reordering topics [A,B,C] (orders 0,1,2) to [C,A,B]
makes a subsequent ordered list return C,A,B with order values 0,1,2. -/
theorem C8_amended_reorder (u : User) (hrole : u.role ∈ contributorRoles) :
    (∀ sid ids db, ids.Nodup →
      (ids.all (fun i => db.chapters.any (fun c => c.id == i))) = true →
      ∃ db2, reorderChapters (some u) sid ids db = .ok db2 ∧
        db2.chapters = db.chapters.map (fun c : Chapter => if c.id ∈ ids then { c with order := Int.ofNat (ids.indexOf c.id) } else c) ∧
        reorderChapters (some u) sid ids db2 = .ok db2) ∧
    (∀ cid ids db, ids.Nodup →
      (ids.all (fun i => db.topics.any (fun t => t.id == i))) = true →
      ∃ db2, reorderTopics (some u) cid ids db = .ok db2 ∧
        db2.topics = db.topics.map (fun t : Topic => if t.id ∈ ids then { t with order := Int.ofNat (ids.indexOf t.id) } else t) ∧
        reorderTopics (some u) cid ids db2 = .ok db2) ∧
    ((match reorderTopics (some uContrib) 10 [23, 21, 22] dbABC with
      | .ok db2 => (listTopicsOfChapter db2 10).map (fun t => (t.title, t.order))
      | .error _ => []) = [("C", 0), ("A", 1), ("B", 2)]) := by
  have hr := requireRole_ok_of_mem hrole
  refine ⟨?_, ?_, by decide⟩
  · intro sid ids db hnd hall
    have hmapEq := applyOrderList_eq (fun c : Chapter => c.id)
      (fun c o => { c with order := o }) (fun y o => rfl) db.chapters ids hnd
    have hidf : ∀ c : Chapter, ((fun c : Chapter => if c.id ∈ ids then { c with order := Int.ofNat (ids.indexOf c.id) } else c) c).id = c.id := by
      intro c
      by_cases h : c.id ∈ ids <;> simp [h]
    have hall2 : (ids.all (fun i => (db.chapters.map (fun c : Chapter => if c.id ∈ ids then { c with order := Int.ofNat (ids.indexOf c.id) } else c)).any (fun c => c.id == i))) = true := by
      have hanyEq : ∀ i, ((db.chapters.map (fun c : Chapter => if c.id ∈ ids then { c with order := Int.ofNat (ids.indexOf c.id) } else c)).any (fun c => c.id == i)) = db.chapters.any (fun c => c.id == i) :=
        fun i => any_map_id_pres _ (fun c : Chapter => c.id) hidf db.chapters i
      rw [funext hanyEq]
      exact hall
    have hff : ∀ c : Chapter, ((fun c : Chapter => if c.id ∈ ids then { c with order := Int.ofNat (ids.indexOf c.id) } else c) ((fun c : Chapter => if c.id ∈ ids then { c with order := Int.ofNat (ids.indexOf c.id) } else c) c)) = ((fun c : Chapter => if c.id ∈ ids then { c with order := Int.ofNat (ids.indexOf c.id) } else c) c) := by
      intro c
      by_cases h : c.id ∈ ids <;> simp [h]
    have hidem : applyOrderList (fun c : Chapter => c.id)
        (fun c o => { c with order := o })
        (db.chapters.map (fun c : Chapter => if c.id ∈ ids then { c with order := Int.ofNat (ids.indexOf c.id) } else c)) ids
        = db.chapters.map (fun c : Chapter => if c.id ∈ ids then { c with order := Int.ofNat (ids.indexOf c.id) } else c) := by
      rw [applyOrderList_eq (fun c : Chapter => c.id)
        (fun c o => { c with order := o }) (fun y o => rfl) _ ids hnd,
        List.map_map]
      congr 1
      funext c
      exact hff c
    refine ⟨{ db with
        chapters := applyOrderList (fun c : Chapter => c.id)
          (fun c o => { c with order := o }) db.chapters ids },
      ?_, hmapEq, ?_⟩
    · simp only [reorderChapters, hr]
      rw [if_pos hall]
    · simp only [reorderChapters, hr]
      rw [hmapEq, if_pos hall2, hidem]
  · intro cid ids db hnd hall
    have hmapEq := applyOrderList_eq (fun t : Topic => t.id)
      (fun t o => { t with order := o }) (fun y o => rfl) db.topics ids hnd
    have hidf : ∀ t : Topic, ((fun t : Topic => if t.id ∈ ids then { t with order := Int.ofNat (ids.indexOf t.id) } else t) t).id = t.id := by
      intro t
      by_cases h : t.id ∈ ids <;> simp [h]
    have hall2 : (ids.all (fun i => (db.topics.map (fun t : Topic => if t.id ∈ ids then { t with order := Int.ofNat (ids.indexOf t.id) } else t)).any (fun t => t.id == i))) = true := by
      have hanyEq : ∀ i, ((db.topics.map (fun t : Topic => if t.id ∈ ids then { t with order := Int.ofNat (ids.indexOf t.id) } else t)).any (fun t => t.id == i)) = db.topics.any (fun t => t.id == i) :=
        fun i => any_map_id_pres _ (fun t : Topic => t.id) hidf db.topics i
      rw [funext hanyEq]
      exact hall
    have hff : ∀ t : Topic, ((fun t : Topic => if t.id ∈ ids then { t with order := Int.ofNat (ids.indexOf t.id) } else t) ((fun t : Topic => if t.id ∈ ids then { t with order := Int.ofNat (ids.indexOf t.id) } else t) t)) = ((fun t : Topic => if t.id ∈ ids then { t with order := Int.ofNat (ids.indexOf t.id) } else t) t) := by
      intro t
      by_cases h : t.id ∈ ids <;> simp [h]
    have hidem : applyOrderList (fun t : Topic => t.id)
        (fun t o => { t with order := o })
        (db.topics.map (fun t : Topic => if t.id ∈ ids then { t with order := Int.ofNat (ids.indexOf t.id) } else t)) ids
        = db.topics.map (fun t : Topic => if t.id ∈ ids then { t with order := Int.ofNat (ids.indexOf t.id) } else t) := by
      rw [applyOrderList_eq (fun t : Topic => t.id)
        (fun t o => { t with order := o }) (fun y o => rfl) _ ids hnd,
        List.map_map]
      congr 1
      funext t
      exact hff t
    refine ⟨{ db with
        topics := applyOrderList (fun t : Topic => t.id)
          (fun t o => { t with order := o }) db.topics ids },
      ?_, hmapEq, ?_⟩
    · simp only [reorderTopics, hr]
      rw [if_pos hall]
    · simp only [reorderTopics, hr]
      rw [hmapEq, if_pos hall2, hidem]

theorem C8_amended_witness :
    ∃ db2, reorderTopics (some uContrib) 10 [23, 21, 22] dbABC = .ok db2 ∧
      db2.topics = dbABC.topics.map (fun t => if t.id ∈ [23, 21, 22] then
        { t with order := Int.ofNat ([23, 21, 22].indexOf t.id) } else t) ∧
      reorderTopics (some uContrib) 10 [23, 21, 22] db2 = .ok db2 :=
  (C8_amended_reorder uContrib (by decide)).2.1 10 [23, 21, 22] dbABC
    (by decide) (by decide)

-- ============= C1 =============

lemma gapless_nil : gapless [] := by
  constructor
  · exact List.nodup_nil
  · intro k
    simp
    omega

lemma foldr_max_le (xs : List Nat) (n : Nat) (h : ∀ k ∈ xs, k ≤ n) :
    xs.foldr max 0 ≤ n := by
  induction xs with
  | nil => exact Nat.zero_le n
  | cons x t ih =>
    simp only [List.foldr_cons]
    exact max_le (h x (by simp)) (ih (fun k hk => h k (by simp [hk])))

lemma le_foldr_max (xs : List Nat) (k : Nat) (h : k ∈ xs) :
    k ≤ xs.foldr max 0 := by
  induction xs with
  | nil => cases h
  | cons x t ih =>
    simp only [List.foldr_cons]
    rcases List.mem_cons.mp h with h1 | h1
    · rw [h1]
      exact le_max_left x _
    · exact le_trans (ih h1) (le_max_right x _)

/-- On a gapless list 1..N, the stored maximum (what the code reads as the
latest version) equals the length N. -/
lemma gapless_max (vs : List Nat) (h : gapless vs) :
    vs.foldr max 0 = vs.length := by
  obtain ⟨hnd, hmem⟩ := h
  cases hlen : vs.length with
  | zero =>
    have : vs = [] := List.eq_nil_of_length_eq_zero hlen
    rw [this]
    rfl
  | succ n =>
    apply le_antisymm
    · apply foldr_max_le
      intro k hk
      have := (hmem k).mp hk
      omega
    · have : vs.length ∈ vs := by
        apply (hmem vs.length).mpr
        omega
      have h2 := le_foldr_max vs vs.length this
      omega

/-- Appending N + 1 to a gapless list 1..N keeps it gapless. -/
lemma gapless_append (vs : List Nat) (h : gapless vs) :
    gapless (vs ++ [vs.length + 1]) := by
  obtain ⟨hnd, hmem⟩ := h
  constructor
  · rw [List.nodup_append]
    refine ⟨hnd, List.nodup_singleton _, ?_⟩
    intro a ha hb
    have h1 := (hmem a).mp ha
    have h2 : a = vs.length + 1 := by simpa using hb
    omega
  · intro k
    rw [List.mem_append, List.length_append]
    simp only [List.mem_singleton, List.length_singleton]
    rw [hmem k]
    omega

lemma topicVersionNums_append_self (dbA dbB : DB) (tid : Nat)
    (ver : TopicVersion) (hts : (ver.topicId == tid) = true)
    (h : dbB.versions = dbA.versions ++ [ver]) :
    topicVersionNums dbB tid = topicVersionNums dbA tid ++ [ver.version] := by
  simp only [topicVersionNums, h]
  rw [List.filter_append]
  have h1 : List.filter (fun v => v.topicId == tid) [ver] = [ver] := by
    simp [hts]
  rw [h1, List.map_append]
  rfl

/-- Appending one version at stored-max + 1 for topic `id` preserves
gaplessness of every topic's version list. -/
lemma gapless_after_append (db : DB) (id : Nat)
    (hinv : ∀ tid, gapless (topicVersionNums db tid))
    (db2 : DB) (content changelog : String) (uid : Nat)
    (hv : db2.versions = db.versions ++
      [⟨id, latestVersionNum db id + 1, content, changelog, uid⟩]) :
    ∀ tid, gapless (topicVersionNums db2 tid) := by
  intro tid
  by_cases h : tid = id
  · subst h
    rw [topicVersionNums_append_self db db2 tid _ (by simp) hv]
    have hmax : latestVersionNum db tid = (topicVersionNums db tid).length :=
      gapless_max _ (hinv tid)
    rw [show (⟨tid, latestVersionNum db tid + 1, content, changelog, uid⟩ :
        TopicVersion).version = latestVersionNum db tid + 1 from rfl, hmax]
    exact gapless_append _ (hinv tid)
  · rw [topicVersionNums_append_other db db2 tid _
      (by simp; exact fun hh => h hh.symm) hv]
    exact hinv tid

/-- Referential integrity of the version table: every TopicVersion row points
at an existing Topic row (the store's foreign key). -/
def VersionWF (db : DB) : Prop :=
  ∀ v ∈ db.versions, ∃ t ∈ db.topics, t.id = v.topicId

lemma VersionWF_setTopic (db : DB) (id : Nat) (topicU : Topic)
    (hid : topicU.id = id) (hwf : VersionWF db) :
    VersionWF (setTopic db id topicU) := by
  intro v hv
  obtain ⟨t, ht, hid2⟩ := hwf v hv
  refine ⟨if t.id == id then topicU else t, List.mem_map_of_mem _ ht, ?_⟩
  by_cases h : t.id = id
  · rw [if_pos (by simpa using h), hid, ← h, hid2]
  · rw [if_neg (by simpa using h), hid2]

lemma topicU_mem_setTopic (db : DB) (id : Nat) (topicU existing : Topic)
    (hf : findTopic db id = some existing) (hid : topicU.id = id) :
    ∃ t ∈ (setTopic db id topicU).topics, t.id = id := by
  refine ⟨topicU, ?_, hid⟩
  have hmem := mem_of_findTopic hf
  have hEid : existing.id = id := id_of_findTopic hf
  have h2 : (fun t => if t.id == id then topicU else t) existing = topicU := by
    simp [hEid]
  have h3 : (fun t => if t.id == id then topicU else t) existing
      ∈ db.topics.map (fun t => if t.id == id then topicU else t) :=
    List.mem_map_of_mem _ hmem
  rw [h2] at h3
  exact h3

lemma no_versions_of_fresh (db : DB) (newId : Nat) (hwf : VersionWF db)
    (hpk : db.topics.any (fun t => t.id == newId) = false) :
    topicVersionNums db newId = [] := by
  rw [topicVersionNums, List.map_eq_nil_iff, List.filter_eq_nil_iff]
  intro v hv hcontra
  obtain ⟨t, ht, hid2⟩ := hwf v hv
  have hvid : v.topicId = newId := by simpa using hcontra
  have : db.topics.any (fun t => t.id == newId) = true := by
    rw [List.any_eq_true]
    exact ⟨t, ht, by simp [hid2, hvid]⟩
  rw [this] at hpk
  cases hpk

/-- One successful or failed version-ledger operation preserves referential
integrity and the gaplessness of every topic's version numbers. -/
lemma inv_runTopicOp (op : TopicOp) (db : DB) (hwf : VersionWF db)
    (hinv : ∀ tid, gapless (topicVersionNums db tid)) :
    VersionWF (runTopicOp op db) ∧
      ∀ tid, gapless (topicVersionNums (runTopicOp op db) tid) := by
  cases hE0 : applyTopicOp op db with
  | error e =>
    have hrun : runTopicOp op db = db := by simp [runTopicOp, hE0]
    rw [hrun]
    exact ⟨hwf, hinv⟩
  | ok r =>
    have hrun : runTopicOp op db = r.2 := by simp [runTopicOp, hE0]
    rw [hrun]
    cases op with
    | create user data newId =>
      simp only [applyTopicOp, createTopic] at hE0
      cases hreq : requireRole contributorRoles user with
      | error e => rw [hreq] at hE0; cases hE0
      | ok u =>
        rw [hreq] at hE0
        cases hch : findChapter db data.chapterId with
        | none => rw [hch] at hE0; cases hE0
        | some ch =>
          rw [hch] at hE0
          cases hpk : db.topics.any (fun t => t.id == newId) with
          | true => simp only [hpk, if_true] at hE0; cases hE0
          | false =>
            cases hsl : db.topics.any (fun t =>
                t.chapterId == data.chapterId && t.slug == data.slug) with
            | true =>
              simp only [hpk, hsl, Bool.false_eq_true, if_false, if_true]
                at hE0
              cases hE0
            | false =>
              simp only [hpk, hsl, Bool.false_eq_true, if_false,
                Except.ok.injEq] at hE0
              rw [← hE0]
              constructor
              · intro v hv
                have hv2 : v ∈ db.versions ++
                    [⟨newId, 1, data.content, "Initial version", u.id⟩] := hv
                rcases List.mem_append.mp hv2 with hvold | hvnew
                · obtain ⟨t, ht, hid2⟩ := hwf v hvold
                  exact ⟨t, List.mem_append_left _ ht, hid2⟩
                · have hveq : v
                      = ⟨newId, 1, data.content, "Initial version", u.id⟩ := by
                    simpa using hvnew
                  subst hveq
                  refine ⟨_, List.mem_append_right _ (List.mem_singleton_self _),
                    rfl⟩
              · intro tid
                have hempty := no_versions_of_fresh db newId hwf hpk
                by_cases h : tid = newId
                · subst h
                  rw [topicVersionNums_append_self db _ tid
                    (⟨tid, 1, data.content, "Initial version", u.id⟩)
                    (by simp) rfl, hempty]
                  exact gapless_append [] gapless_nil
                · rw [topicVersionNums_append_other db _ tid
                    (⟨newId, 1, data.content, "Initial version", u.id⟩)
                    (by simp; exact fun hh => h hh.symm) rfl]
                  exact hinv tid
    | update user id data changelog now =>
      simp only [applyTopicOp, updateTopic] at hE0
      cases hreq : requireRole contributorRoles user with
      | error e => rw [hreq] at hE0; cases hE0
      | ok u =>
        rw [hreq] at hE0
        cases hf : findTopic db id with
        | none => rw [hf] at hE0; cases hE0
        | some existing =>
          rw [hf] at hE0
          have hid : (applyTopicUpdate existing data now).id = id := by
            simpa using id_of_findTopic hf
          have hwfSet : VersionWF (setTopic db id
              (applyTopicUpdate existing data now)) :=
            VersionWF_setTopic db id _ hid hwf
          cases hdc : data.content with
          | none =>
            simp only [hdc, Except.ok.injEq] at hE0
            rw [← hE0]
            exact ⟨hwfSet, hinv⟩
          | some c =>
            by_cases hne : (!(c == "") && !(c == existing.content)) = true
            · simp only [hdc, hne, if_true, Except.ok.injEq] at hE0
              rw [← hE0]
              constructor
              · intro v hv
                have hv2 : v ∈ db.versions ++
                    [⟨id, latestVersionNum db id + 1, c,
                      defaultChangelog changelog, u.id⟩] := hv
                rcases List.mem_append.mp hv2 with hvold | hvnew
                · obtain ⟨t, ht, hid2⟩ := hwfSet v hvold
                  exact ⟨t, ht, hid2⟩
                · have hveq : v = ⟨id, latestVersionNum db id + 1, c,
                      defaultChangelog changelog, u.id⟩ := by simpa using hvnew
                  subst hveq
                  obtain ⟨t, ht, hid2⟩ := topicU_mem_setTopic db id _ existing
                    hf hid
                  exact ⟨t, ht, hid2⟩
              · exact gapless_after_append db id hinv _ c
                  (defaultChangelog changelog) u.id rfl
            · simp only [hdc, hne, Bool.false_eq_true, if_false,
                Except.ok.injEq] at hE0
              rw [← hE0]
              exact ⟨hwfSet, hinv⟩
    | restore user id version =>
      simp only [applyTopicOp, restoreVersion] at hE0
      cases hreq : requireRole managerRoles user with
      | error e => rw [hreq] at hE0; cases hE0
      | ok u =>
        rw [hreq] at hE0
        cases hv0 : findVersion db id version with
        | none => rw [hv0] at hE0; cases hE0
        | some tv =>
          rw [hv0] at hE0
          cases hf : findTopic db id with
          | none => rw [hf] at hE0; cases hE0
          | some t0r =>
            rw [hf] at hE0
            simp only [Except.ok.injEq] at hE0
            rw [← hE0]
            have hid : ({ t0r with content := tv.content } : Topic).id = id := by
              simpa using id_of_findTopic hf
            have hwfSet : VersionWF (setTopic db id
                { t0r with content := tv.content }) :=
              VersionWF_setTopic db id _ hid hwf
            constructor
            · intro v hv
              have hv2 : v ∈ db.versions ++
                  [⟨id, latestVersionNum db id + 1, tv.content,
                    "Restored from version " ++ toString version, u.id⟩] := hv
              rcases List.mem_append.mp hv2 with hvold | hvnew
              · obtain ⟨t, ht, hid2⟩ := hwfSet v hvold
                exact ⟨t, ht, hid2⟩
              · have hveq : v = ⟨id, latestVersionNum db id + 1, tv.content,
                    "Restored from version " ++ toString version, u.id⟩ := by
                  simpa using hvnew
                subst hveq
                obtain ⟨t, ht, hid2⟩ := topicU_mem_setTopic db id _ t0r hf hid
                exact ⟨t, ht, hid2⟩
            · exact gapless_after_append db id hinv _ tv.content
                ("Restored from version " ++ toString version) u.id rfl

lemma inv_runTopicOps (ops : List TopicOp) (db : DB) (hwf : VersionWF db)
    (hinv : ∀ tid, gapless (topicVersionNums db tid)) :
    VersionWF (runTopicOps ops db) ∧
      ∀ tid, gapless (topicVersionNums (runTopicOps ops db) tid) := by
  induction ops generalizing db with
  | nil => exact ⟨hwf, hinv⟩
  | cons op opt ih =>
    have h1 := inv_runTopicOp op db hwf hinv
    exact ih (runTopicOp op db) h1.1 h1.2

/-- C1: starting from any state with an empty version table, after any
sequence of createTopic, updateTopic and restoreVersion requests (failed
requests leave the state unchanged), every topic's version numbers form the
gapless sequence 1..N: createTopic writes version 1 and every appending
operation writes exactly the stored maximum + 1. -/
theorem C1_versions_gapless (db : DB) (hstart : db.versions = [])
    (ops : List TopicOp) (tid : Nat) :
    gapless (topicVersionNums (runTopicOps ops db) tid) := by
  have hwf : VersionWF db := by
    intro v hv
    rw [hstart] at hv
    cases hv
  have hinv : ∀ t2, gapless (topicVersionNums db t2) := by
    intro t2
    have h1 : topicVersionNums db t2 = [] := by
      simp [topicVersionNums, hstart]
    rw [h1]
    exact gapless_nil
  exact (inv_runTopicOps ops db hwf hinv).2 tid

def dbNoVers : DB := { db0 with topics := [], versions := [] }

def opsC1 : List TopicOp :=
  [.create (some uContrib)
      ⟨"Intro", "intro", "x", none, none, 10, none, none⟩ 20,
    .update (some uContrib) 20 { content := some "y" } none 5,
    .restore (some uMgr) 20 1]

theorem C1_witness :
    topicVersionNums (runTopicOps opsC1 dbNoVers) 20 = [1, 2, 3] ∧
    gapless (topicVersionNums (runTopicOps opsC1 dbNoVers) 20) :=
  ⟨by decide, C1_versions_gapless dbNoVers rfl opsC1 20⟩

end NotesSaas
